import Mathlib

/-!
Shallow embedding of the Epsilon portfolio-management ledger
(`src/controllers/investmentController.js`), restricted to the state of a
single authenticated user: a cash balance (the `users.cashBalance` column),
a list of `Investment` rows and an append-only list of `Transaction` rows.

Money amounts are modelled as rationals; JavaScript's
`parseFloat(x.toFixed(2))` becomes `round2` (round half up to a multiple of
1/100).  `parseInt` of a request-body quantity becomes an `Option Int`
argument (`none` models `NaN`).  The price oracle
(`financeAPI.getStockPrice`) is an explicit function argument returning
`Option StockData`.  Each mutating endpoint returns the HTTP-level outcome,
the committed state (the input state unchanged when the transaction rolled
back) and the ordered list of oracle/lock events it performed.
-/

namespace Epsilon

/-- `parseFloat(x.toFixed(2))`: round half up to two decimal places. -/
def round2 (x : ℚ) : ℚ := (⌊x * 100 + 1 / 2⌋ : ℚ) / 100

/-- ASCII upper-casing of one character, as JavaScript's `toUpperCase()`
acts on the ASCII ticker symbols this application handles. -/
def upChar (c : Char) : Char :=
  if 'a' ≤ c ∧ c ≤ 'z' then Char.ofNat (c.toNat - 32) else c

/-- `symbol.toUpperCase()` on ASCII ticker symbols. -/
def jsToUpper (s : String) : String := ⟨s.data.map upChar⟩

/-- Successful result of `financeAPI.getStockPrice`. -/
structure StockData where
  price : ℚ
  shortName : Option String
deriving Repr, DecidableEq

/-- One row of the `investments` table (fields used by the controller). -/
structure Investment where
  id : Nat
  symbol : String
  companyName : Option String
  quantity : Int
  purchasePrice : ℚ
  currentPrice : ℚ
  totalInvested : ℚ
deriving Repr, DecidableEq

/-- One row of the `transactions` table (fields used by the controller). -/
structure TxnRecord where
  symbol : String
  transactionType : String
  quantity : Int
  price : ℚ
  totalAmount : ℚ
deriving Repr, DecidableEq

/-- The one user's durable state: cash balance, investment rows, and the
append-only transaction log.  `nextId` models the auto-increment id of the
`investments` table. -/
structure LedgerState where
  cashBalance : ℚ
  positions : List Investment
  txns : List TxnRecord
  nextId : Nat
deriving Repr, DecidableEq

/-- I/O events a request performs, in program order: the oracle fetch and
the row reads, with or without `lock: true`. -/
inductive Event where
  | oracleFetch
  | lockUser
  | lockInvestment
  | readUser
  | readInvestment
deriving Repr, DecidableEq

/-- Error responses of the investment endpoints.  The two
insufficient-funds constructors mirror the two different JSON payloads:
`createInvestment` interpolates both the required total and the balance
into its message, while `buyInvestment` returns only `currentBalance`. -/
inductive TradeError where
  | invalidInput
  | pricingUnavailable
  | invalidStockPrice
  | insufficientFundsMsg (required : ℚ) (balance : ℚ)
  | insufficientFundsBalance (currentBalance : ℚ)
  | positionNotFound
  | insufficientShares (requested : Int) (held : Int)
deriving Repr, DecidableEq

/-- Whether an error payload reports the required amount of a purchase. -/
def TradeError.reportsRequired : TradeError → Bool
  | .insufficientFundsMsg _ _ => true
  | _ => false

/-- Success payload of the two buy endpoints (`data` of the 200/201 body). -/
structure BuyResult where
  investment : Investment
  remainingCash : ℚ
  txSymbol : String
  txQuantity : Int
  txPricePerShare : ℚ
  txTotalCost : ℚ
deriving Repr, DecidableEq

/-- Success payload of `sellInvestment` (`data` of the 200 body). -/
structure SellResult where
  symbol : String
  quantitySold : Int
  pricePerShare : ℚ
  totalReceived : ℚ
  profitLoss : ℚ
  profitLossPercent : ℚ
  newCashBalance : ℚ
  remainingShares : Int
deriving Repr, DecidableEq

/-- `investment.update(...)` on a row found by primary key: replace the row
with the given id. -/
def replacePos (ps : List Investment) (inv : Investment) : List Investment :=
  ps.map fun p => if p.id == inv.id then inv else p

/-- `investment.destroy()`: remove the row with the given id. -/
def removePos (ps : List Investment) (id : Nat) : List Investment :=
  ps.filter fun p => p.id != id

/-- `buyInvestment` (controller lines 548–704).  Validates the parsed
quantity, fetches the price for the symbol exactly as given, rejects a
non-positive price, rounds `totalCost` to 2 decimals, locks the user row,
checks funds (reporting only the current balance on failure), locks and
upserts the investment row, debits the cash balance and appends a BUY
transaction. -/
def buyInvestment (oracle : String → Option StockData) (symbol : String)
    (quantity : Option Int) (s : LedgerState) :
    Except TradeError BuyResult × LedgerState × List Event :=
  match quantity with
  | none => (.error .invalidInput, s, [])
  | some purchaseQuantity =>
    if purchaseQuantity ≤ 0 then (.error .invalidInput, s, [])
    else
      match oracle symbol with
      | none => (.error .pricingUnavailable, s, [.oracleFetch])
      | some stockData =>
        let stockPrice := stockData.price
        if stockPrice ≤ 0 then (.error .invalidStockPrice, s, [.oracleFetch])
        else
          let totalCost := round2 (stockPrice * purchaseQuantity)
          let userCashBalance := s.cashBalance
          if userCashBalance < totalCost then
            (.error (.insufficientFundsBalance userCashBalance), s,
              [.oracleFetch, .lockUser])
          else
            let newCashBalance := round2 (userCashBalance - totalCost)
            let txn : TxnRecord :=
              { symbol := symbol, transactionType := "BUY",
                quantity := purchaseQuantity, price := round2 stockPrice,
                totalAmount := totalCost }
            match s.positions.find? (fun inv => inv.symbol == symbol) with
            | some investment =>
              let existingTotalInvested := investment.totalInvested
              let existingQuantity := investment.quantity
              let newTotalInvested := round2 (existingTotalInvested + totalCost)
              let newQuantity := existingQuantity + purchaseQuantity
              let newAveragePrice := round2 (newTotalInvested / (newQuantity : ℚ))
              let investment' : Investment :=
                { investment with
                  quantity := newQuantity, purchasePrice := newAveragePrice,
                  totalInvested := newTotalInvested,
                  currentPrice := round2 stockPrice }
              (.ok { investment := investment', remainingCash := newCashBalance,
                      txSymbol := symbol, txQuantity := purchaseQuantity,
                      txPricePerShare := stockPrice, txTotalCost := totalCost },
                { s with cashBalance := newCashBalance,
                         positions := replacePos s.positions investment',
                         txns := s.txns ++ [txn] },
                [.oracleFetch, .lockUser, .lockInvestment])
            | none =>
              let investment' : Investment :=
                { id := s.nextId, symbol := symbol,
                  companyName := some (stockData.shortName.getD (symbol ++ " Inc.")),
                  quantity := purchaseQuantity,
                  purchasePrice := round2 stockPrice,
                  currentPrice := round2 stockPrice,
                  totalInvested := totalCost }
              (.ok { investment := investment', remainingCash := newCashBalance,
                      txSymbol := symbol, txQuantity := purchaseQuantity,
                      txPricePerShare := stockPrice, txTotalCost := totalCost },
                { cashBalance := newCashBalance,
                  positions := s.positions ++ [investment'],
                  txns := s.txns ++ [txn], nextId := s.nextId + 1 },
                [.oracleFetch, .lockUser, .lockInvestment])

/-- `createInvestment` (controller lines 125–246).  Rejects an empty symbol
or non-positive quantity, upper-cases the symbol for the price lookup and
all storage, computes `totalCost` without rounding, reads the user and the
investment row without locks, reports both the required total and the
balance on insufficient funds, and applies the unrounded weighted-average
update. -/
def createInvestment (oracle : String → Option StockData) (symbol : String)
    (quantity : Int) (s : LedgerState) :
    Except TradeError BuyResult × LedgerState × List Event :=
  if symbol = "" ∨ quantity ≤ 0 then (.error .invalidInput, s, [])
  else
    match oracle (jsToUpper symbol) with
    | none => (.error .pricingUnavailable, s, [.oracleFetch])
    | some stockData =>
      let currentPrice := stockData.price
      let totalCost := currentPrice * quantity
      if s.cashBalance < totalCost then
        (.error (.insufficientFundsMsg totalCost s.cashBalance), s,
          [.oracleFetch, .readUser])
      else
        let newCashBalance := s.cashBalance - totalCost
        let txn : TxnRecord :=
          { symbol := jsToUpper symbol, transactionType := "BUY",
            quantity := quantity, price := currentPrice,
            totalAmount := totalCost }
        match s.positions.find? (fun inv => inv.symbol == jsToUpper symbol) with
        | some investment =>
          let newTotalQuantity := investment.quantity + quantity
          let newTotalInvested := investment.totalInvested + totalCost
          let newAveragePrice := newTotalInvested / (newTotalQuantity : ℚ)
          let investment' : Investment :=
            { investment with
              quantity := newTotalQuantity, purchasePrice := newAveragePrice,
              totalInvested := newTotalInvested, currentPrice := currentPrice,
              companyName := stockData.shortName.or investment.companyName }
          (.ok { investment := investment', remainingCash := newCashBalance,
                  txSymbol := jsToUpper symbol, txQuantity := quantity,
                  txPricePerShare := currentPrice, txTotalCost := totalCost },
            { s with cashBalance := newCashBalance,
                     positions := replacePos s.positions investment',
                     txns := s.txns ++ [txn] },
            [.oracleFetch, .readUser, .readInvestment])
        | none =>
          let investment' : Investment :=
            { id := s.nextId, symbol := jsToUpper symbol,
              companyName := stockData.shortName,
              quantity := quantity, purchasePrice := currentPrice,
              currentPrice := currentPrice, totalInvested := totalCost }
          (.ok { investment := investment', remainingCash := newCashBalance,
                  txSymbol := jsToUpper symbol, txQuantity := quantity,
                  txPricePerShare := currentPrice, txTotalCost := totalCost },
            { cashBalance := newCashBalance,
              positions := s.positions ++ [investment'],
              txns := s.txns ++ [txn], nextId := s.nextId + 1 },
            [.oracleFetch, .readUser, .readInvestment])

/-- `sellInvestment` (controller lines 249–399).  Validates the parsed
quantity, finds the investment by id with `lock: true` (before the oracle
fetch), rejects overselling reporting both quantities, falls back to the
row's `currentPrice` when the oracle fails, rounds each derived amount to
2 decimals, locks and credits the user row, appends a SELL transaction and
deletes the row on full liquidation or updates it proportionally. -/
def sellInvestment (oracle : String → Option StockData) (id : Nat)
    (quantity : Option Int) (s : LedgerState) :
    Except TradeError SellResult × LedgerState × List Event :=
  match quantity with
  | none => (.error .invalidInput, s, [])
  | some sellQuantity =>
    if sellQuantity ≤ 0 then (.error .invalidInput, s, [])
    else
      match s.positions.find? (fun inv => inv.id == id) with
      | none => (.error .positionNotFound, s, [.lockInvestment])
      | some investment =>
        let investmentQuantity := investment.quantity
        if investmentQuantity < sellQuantity then
          (.error (.insufficientShares sellQuantity investmentQuantity), s,
            [.lockInvestment])
        else
          let currentPrice :=
            match oracle investment.symbol with
            | some stockData => round2 stockData.price
            | none => investment.currentPrice
          let saleValue := round2 (currentPrice * sellQuantity)
          let totalInvested := investment.totalInvested
          let proportionalInvested :=
            round2 ((totalInvested / (investmentQuantity : ℚ)) * sellQuantity)
          let profitLoss := round2 (saleValue - proportionalInvested)
          let profitLossPercent :=
            if 0 < proportionalInvested then
              round2 ((profitLoss / proportionalInvested) * 100)
            else 0
          let newCashBalance := round2 (s.cashBalance + saleValue)
          let txn : TxnRecord :=
            { symbol := investment.symbol, transactionType := "SELL",
              quantity := sellQuantity, price := currentPrice,
              totalAmount := saleValue }
          let result : SellResult :=
            { symbol := investment.symbol, quantitySold := sellQuantity,
              pricePerShare := currentPrice, totalReceived := saleValue,
              profitLoss := profitLoss, profitLossPercent := profitLossPercent,
              newCashBalance := newCashBalance,
              remainingShares :=
                if sellQuantity = investmentQuantity then 0
                else investmentQuantity - sellQuantity }
          if sellQuantity = investmentQuantity then
            (.ok result,
              { s with cashBalance := newCashBalance,
                       positions := removePos s.positions investment.id,
                       txns := s.txns ++ [txn] },
              [.lockInvestment, .oracleFetch, .lockUser])
          else
            let remainingQuantity := investmentQuantity - sellQuantity
            let remainingTotalInvested :=
              round2 (totalInvested - proportionalInvested)
            let newAveragePrice :=
              if 0 < remainingQuantity then
                round2 (remainingTotalInvested / (remainingQuantity : ℚ))
              else investment.purchasePrice
            let investment' : Investment :=
              { investment with
                quantity := remainingQuantity,
                totalInvested := remainingTotalInvested,
                purchasePrice := newAveragePrice,
                currentPrice := currentPrice }
            (.ok result,
              { s with cashBalance := newCashBalance,
                       positions := replacePos s.positions investment',
                       txns := s.txns ++ [txn] },
              [.lockInvestment, .oracleFetch, .lockUser])

/-- `deleteInvestment` (controller lines 402–432).  Finds the row by id and
destroys it; the cash balance and the transaction log are untouched. -/
def deleteInvestment (id : Nat) (s : LedgerState) :
    Except TradeError Unit × LedgerState :=
  match s.positions.find? (fun inv => inv.id == id) with
  | none => (.error .positionNotFound, s)
  | some investment =>
    (.ok (), { s with positions := removePos s.positions investment.id })

/-- One trade request, for reasoning about sequences of trades. -/
inductive Op where
  | buy (oracle : String → Option StockData) (symbol : String)
        (quantity : Option Int)
  | sell (oracle : String → Option StockData) (id : Nat)
         (quantity : Option Int)

/-- The committed state after one trade request. -/
def applyOp : Op → LedgerState → LedgerState
  | .buy oracle symbol q, s => (buyInvestment oracle symbol q s).2.1
  | .sell oracle id q, s => (sellInvestment oracle id q s).2.1

/-- The committed state after a sequence of trade requests. -/
def run (ops : List Op) (s : LedgerState) : LedgerState :=
  ops.foldl (fun s op => applyOp op s) s

/-- Signed cash movement a transaction record witnesses: a BUY debited its
`totalAmount`, a SELL credited it. -/
def txnDelta (t : TxnRecord) : ℚ :=
  if t.transactionType = "BUY" then -t.totalAmount else t.totalAmount

/-- Net signed cash movement of a list of transaction records. -/
def sumDelta (l : List TxnRecord) : ℚ := (l.map txnDelta).sum

/-- Total cost basis (`totalInvested`) over a state's open positions. -/
def openBasis (s : LedgerState) : ℚ := (s.positions.map (·.totalInvested)).sum

/-- An amount representable with exactly two decimal digits, as every
committed monetary column of this schema (`DECIMAL(10,2)`/`DECIMAL(12,2)`)
is. -/
def Money2 (x : ℚ) : Prop := ∃ n : ℤ, x = n / 100

theorem Money2.add {x y : ℚ} (hx : Money2 x) (hy : Money2 y) :
    Money2 (x + y) := by
  obtain ⟨n, rfl⟩ := hx
  obtain ⟨m, rfl⟩ := hy
  exact ⟨n + m, by push_cast; ring⟩

theorem Money2.sub {x y : ℚ} (hx : Money2 x) (hy : Money2 y) :
    Money2 (x - y) := by
  obtain ⟨n, rfl⟩ := hx
  obtain ⟨m, rfl⟩ := hy
  exact ⟨n - m, by push_cast; ring⟩

theorem Money2.neg {x : ℚ} (hx : Money2 x) : Money2 (-x) := by
  obtain ⟨n, rfl⟩ := hx
  exact ⟨-n, by push_cast; ring⟩

theorem Money2.mul_int {x : ℚ} (hx : Money2 x) (k : ℤ) :
    Money2 (x * k) := by
  obtain ⟨n, rfl⟩ := hx
  exact ⟨n * k, by push_cast; ring⟩

theorem round2_money2 (x : ℚ) : Money2 (round2 x) := ⟨⌊x * 100 + 1 / 2⌋, rfl⟩

/-- Rounding to two decimals is the identity on two-decimal amounts. -/
theorem round2_eq_self {x : ℚ} (hx : Money2 x) : round2 x = x := by
  obtain ⟨n, rfl⟩ := hx
  have h100 : ((n : ℚ) / 100) * 100 = (n : ℚ) := by
    field_simp
  rw [Epsilon.round2, h100, Int.floor_int_add]
  norm_num

/-- One 2-decimal rounding moves an amount by at most half a cent. -/
theorem abs_round2_sub_le (x : ℚ) : |round2 x - x| ≤ 1 / 200 := by
  rw [abs_le]
  have h1 : (⌊x * 100 + 1 / 2⌋ : ℚ) ≤ x * 100 + 1 / 2 := Int.floor_le _
  have h2 : x * 100 + 1 / 2 - 1 < (⌊x * 100 + 1 / 2⌋ : ℚ) := Int.sub_one_lt_floor _
  rw [Epsilon.round2]
  constructor <;> nlinarith

theorem sumDelta_append (l : List TxnRecord) (t : TxnRecord) :
    sumDelta (l ++ [t]) = sumDelta l + txnDelta t := by
  simp [sumDelta]

theorem run_nil (s : LedgerState) : run [] s = s := rfl

theorem run_cons (op : Op) (ops : List Op) (s : LedgerState) :
    run (op :: ops) s = run ops (applyOp op s) := rfl

/-- A committed debit of `round2 c`, recorded by a BUY row, preserves the
difference between the cash balance and the log's net movement. -/
theorem conserve_debit (s : LedgerState) (h : Money2 s.cashBalance) (c : ℚ)
    (t : TxnRecord) (ht : txnDelta t = -round2 c) :
    Money2 (round2 (s.cashBalance - round2 c)) ∧
    round2 (s.cashBalance - round2 c) - sumDelta (s.txns ++ [t])
      = s.cashBalance - sumDelta s.txns := by
  have hc : round2 (s.cashBalance - round2 c) = s.cashBalance - round2 c :=
    round2_eq_self (h.sub (round2_money2 c))
  refine ⟨by rw [hc]; exact h.sub (round2_money2 c), ?_⟩
  rw [sumDelta_append, hc, ht]
  ring

/-- A committed credit of `round2 c`, recorded by a SELL row, preserves the
difference between the cash balance and the log's net movement. -/
theorem conserve_credit (s : LedgerState) (h : Money2 s.cashBalance) (c : ℚ)
    (t : TxnRecord) (ht : txnDelta t = round2 c) :
    Money2 (round2 (s.cashBalance + round2 c)) ∧
    round2 (s.cashBalance + round2 c) - sumDelta (s.txns ++ [t])
      = s.cashBalance - sumDelta s.txns := by
  have hc : round2 (s.cashBalance + round2 c) = s.cashBalance + round2 c :=
    round2_eq_self (h.add (round2_money2 c))
  refine ⟨by rw [hc]; exact h.add (round2_money2 c), ?_⟩
  rw [sumDelta_append, hc, ht]
  ring

/-- Every committed trade keeps the cash balance a two-decimal amount and
moves it by exactly the signed `totalAmount` of the transaction records it
appends. -/
theorem applyOp_conservation (op : Op) (s : LedgerState)
    (h : Money2 s.cashBalance) :
    Money2 (applyOp op s).cashBalance ∧
    (applyOp op s).cashBalance - sumDelta (applyOp op s).txns
      = s.cashBalance - sumDelta s.txns := by
  cases op with
  | buy oracle symbol q =>
    cases q with
    | none => exact ⟨h, rfl⟩
    | some pq =>
      simp only [applyOp, buyInvestment]
      split
      · exact ⟨h, rfl⟩
      · split
        · exact ⟨h, rfl⟩
        · split
          · exact ⟨h, rfl⟩
          · split
            · exact ⟨h, rfl⟩
            · split <;> exact conserve_debit s h _ _ (by simp [txnDelta])
  | sell oracle id q =>
    cases q with
    | none => exact ⟨h, rfl⟩
    | some sq =>
      simp only [applyOp, sellInvestment]
      split
      · exact ⟨h, rfl⟩
      · split
        · exact ⟨h, rfl⟩
        · split
          · exact ⟨h, rfl⟩
          · split <;> exact conserve_credit s h _ _ (by simp [txnDelta])

/-- Conservation over any sequence of trades: the cash balance stays a
two-decimal amount, and its difference with the net signed movement of the
transaction log is invariant. -/
theorem run_conservation (ops : List Op) (s : LedgerState)
    (h : Money2 s.cashBalance) :
    Money2 (run ops s).cashBalance ∧
    (run ops s).cashBalance - sumDelta (run ops s).txns
      = s.cashBalance - sumDelta s.txns := by
  induction ops generalizing s with
  | nil => exact ⟨h, rfl⟩
  | cons op ops ih =>
    have h1 := applyOp_conservation op s h
    have h2 := ih (applyOp op s) h1.1
    exact ⟨h2.1, by rw [run_cons, h2.2, h1.2]⟩

/-- C1, counterexample to the claim as stated: starting from cash 5000 and
no positions, a single successful buy of 10 shares at price 150 leaves
`finalCash + Σ totalInvested = 3500 + 1500 = 5000`, while
`initialCash − Σ(totalCost of buys) + Σ(saleValue of sells) = 5000 − 1500 =
3500`; the two sides differ by 1500, far beyond the 2-decimal rounding of
the one executed trade. -/
theorem C1_counterexample :
    (run [.buy (fun _ => some ⟨150, none⟩) "AAPL" (some 10)]
        ⟨5000, [], [], 1⟩).cashBalance
      + openBasis (run [.buy (fun _ => some ⟨150, none⟩) "AAPL" (some 10)]
          ⟨5000, [], [], 1⟩) = 5000 ∧
    (5000 : ℚ) + sumDelta (run [.buy (fun _ => some ⟨150, none⟩) "AAPL"
        (some 10)] ⟨5000, [], [], 1⟩).txns = 3500 ∧
    (5000 : ℚ) ≠ 3500 := by
  refine ⟨?_, ?_, by norm_num⟩ <;>
    norm_num [run, applyOp, buyInvestment, openBasis, sumDelta, txnDelta,
      replacePos, round2]

/-- C1 (amended): for any sequence of buys (`buyInvestment`) and sells
(`sellInvestment`) by one user starting from a two-decimal cash balance and
an empty log, the final cash balance alone — without the claim's extra
`Σ totalInvested` term — equals the initial balance minus the total amounts
of the logged BUY trades plus the total amounts of the logged SELL trades,
exactly: each trade's amount is rounded once when derived and the balance
accumulates no further drift. -/
theorem C1_cash_conservation (ops : List Op) (s : LedgerState)
    (h : Money2 s.cashBalance) (h0 : s.txns = []) :
    (run ops s).cashBalance = s.cashBalance + sumDelta (run ops s).txns := by
  have h2 := (run_conservation ops s h).2
  rw [h0] at h2
  simp only [sumDelta, List.map_nil, List.sum_nil, sub_zero] at h2
  simp only [sumDelta]
  linarith

/-- C1 witness: the amended conservation law applied to a concrete
buy-then-sell sequence. -/
theorem C1_cash_conservation_witness :
    (run [.buy (fun _ => some ⟨150, none⟩) "AAPL" (some 10),
          .sell (fun _ => some ⟨150, none⟩) 1 (some 5)]
        ⟨5000, [], [], 1⟩).cashBalance
      = (5000 : ℚ) + sumDelta (run [.buy (fun _ => some ⟨150, none⟩) "AAPL"
          (some 10), .sell (fun _ => some ⟨150, none⟩) 1 (some 5)]
          ⟨5000, [], [], 1⟩).txns :=
  C1_cash_conservation _ _ ⟨500000, by norm_num⟩ rfl

/-- C2, counterexample to the claim as stated: a buy of 100 shares at 150
against a balance of 1000 fails through `buyInvestment` with an
insufficient-funds payload that carries only the current balance — not the
required amount the claim promises — though the state is indeed
unchanged. -/
theorem C2_counterexample :
    (buyInvestment (fun _ => some ⟨150, none⟩) "AAPL" (some 100)
        ⟨1000, [], [], 1⟩).1
      = .error (.insufficientFundsBalance 1000) ∧
    (TradeError.insufficientFundsBalance 1000).reportsRequired = false ∧
    (buyInvestment (fun _ => some ⟨150, none⟩) "AAPL" (some 100)
        ⟨1000, [], [], 1⟩).2.1 = (⟨1000, [], [], 1⟩ : LedgerState) := by
  refine ⟨?_, rfl, ?_⟩ <;> norm_num [buyInvestment, round2]

/-- C2 (amended): a buy whose total cost exceeds the current cash balance
always fails with an insufficient-funds error and leaves the state (cash
balance, positions, log) unchanged; `createInvestment` reports both the
required amount and the current balance, while `buyInvestment` reports
only the current balance. -/
theorem C2_insufficient_funds (oracle : String → Option StockData)
    (symbol : String) (q : ℤ) (s : LedgerState) (d d' : StockData)
    (hq : 0 < q) (ho : oracle symbol = some d) (hp : 0 < d.price)
    (hfunds : s.cashBalance < round2 (d.price * q))
    (hsym : symbol ≠ "")
    (ho' : oracle (jsToUpper symbol) = some d')
    (hfunds' : s.cashBalance < d'.price * q) :
    buyInvestment oracle symbol (some q) s
      = (.error (.insufficientFundsBalance s.cashBalance), s,
          [.oracleFetch, .lockUser]) ∧
    createInvestment oracle symbol q s
      = (.error (.insufficientFundsMsg (d'.price * q) s.cashBalance), s,
          [.oracleFetch, .readUser]) ∧
    (TradeError.insufficientFundsMsg (d'.price * q) s.cashBalance).reportsRequired
      = true ∧
    (TradeError.insufficientFundsBalance s.cashBalance).reportsRequired
      = false := by
  refine ⟨?_, ?_, rfl, rfl⟩
  · simp only [buyInvestment, ho]
    rw [if_neg (not_le.mpr hq), if_neg (not_le.mpr hp), if_pos hfunds]
  · simp only [createInvestment, ho']
    rw [if_neg (by push_neg; exact ⟨hsym, hq⟩), if_pos hfunds']

/-- C2 witness: the amended statement at the concrete 1000-balance,
15000-cost scenario of the spec. -/
theorem C2_insufficient_funds_witness :
    buyInvestment (fun _ => some ⟨150, none⟩) "AAPL" (some 100)
        ⟨1000, [], [], 1⟩
      = (.error (.insufficientFundsBalance 1000), ⟨1000, [], [], 1⟩,
          [.oracleFetch, .lockUser]) ∧
    createInvestment (fun _ => some ⟨150, none⟩) "AAPL" 100 ⟨1000, [], [], 1⟩
      = (.error (.insufficientFundsMsg (150 * 100) 1000), ⟨1000, [], [], 1⟩,
          [.oracleFetch, .readUser]) := by
  have h := C2_insufficient_funds (fun _ => some ⟨150, none⟩) "AAPL" 100
    ⟨1000, [], [], 1⟩ ⟨150, none⟩ ⟨150, none⟩ (by norm_num) rfl (by norm_num)
    (by norm_num [round2]) (by decide) rfl (by norm_num)
  exact ⟨h.1, h.2.1⟩

/-- C3 (confirmed): a sell whose quantity exceeds the held quantity fails
with an insufficient-shares error reporting both the requested and the held
quantity; the state is unchanged and neither the oracle nor the user row
was touched (the trace holds only the position lookup). -/
theorem C3_no_oversell (oracle : String → Option StockData) (id : Nat)
    (q : ℤ) (s : LedgerState) (inv : Investment)
    (hfind : s.positions.find? (fun p => p.id == id) = some inv)
    (hq0 : 0 ≤ inv.quantity) (hover : inv.quantity < q) :
    sellInvestment oracle id (some q) s
      = (.error (.insufficientShares q inv.quantity), s,
          [.lockInvestment]) := by
  simp only [sellInvestment, hfind]
  rw [if_neg (not_le.mpr (lt_of_le_of_lt hq0 hover)), if_pos hover]

/-- C3 witness: the spec scenario — holding 20 shares, selling 25 fails
reporting 25 requested and 20 held, with the state untouched. -/
theorem C3_no_oversell_witness :
    sellInvestment (fun _ => some ⟨150, none⟩) 1 (some 25)
        ⟨1000, [⟨1, "AAPL", none, 20, 150, 150, 3000⟩], [], 2⟩
      = (.error (.insufficientShares 25 20),
          ⟨1000, [⟨1, "AAPL", none, 20, 150, 150, 3000⟩], [], 2⟩,
          [.lockInvestment]) :=
  C3_no_oversell (fun _ => some ⟨150, none⟩) 1 25
    ⟨1000, [⟨1, "AAPL", none, 20, 150, 150, 3000⟩], [], 2⟩
    ⟨1, "AAPL", none, 20, 150, 150, 3000⟩ rfl (by norm_num) (by norm_num)

/-- C5 (confirmed): when the oracle cannot supply a price, a sell of an
existing position with sufficient shares still completes, using the
position's cached `currentPrice` (the last known price) as the per-share
price, while a buy fails with a pricing error and no state change. -/
theorem C5_sell_price_fallback (oracle : String → Option StockData)
    (symbol : String) (id : Nat) (q : ℤ) (s : LedgerState) (inv : Investment)
    (hfind : s.positions.find? (fun p => p.id == id) = some inv)
    (hq : 0 < q) (hle : q ≤ inv.quantity)
    (hsell : oracle inv.symbol = none)
    (hbuy : oracle symbol = none) :
    (∃ r : SellResult, (sellInvestment oracle id (some q) s).1 = .ok r ∧
        r.pricePerShare = inv.currentPrice ∧ r.quantitySold = q) ∧
    buyInvestment oracle symbol (some q) s
      = (.error .pricingUnavailable, s, [.oracleFetch]) := by
  constructor
  · simp only [sellInvestment, hfind, hsell]
    rw [if_neg (not_le.mpr hq), if_neg (not_lt.mpr hle)]
    split
    · exact ⟨_, rfl, rfl, rfl⟩
    · exact ⟨_, rfl, rfl, rfl⟩
  · simp only [buyInvestment, hbuy]
    rw [if_neg (not_le.mpr hq)]

/-- C5 witness: with a fully unavailable oracle, selling 5 of a 10-share
position completes at the cached price 148 while a buy fails. -/
theorem C5_sell_price_fallback_witness :
    (∃ r : SellResult,
        (sellInvestment (fun _ => none) 1 (some 5)
            ⟨1000, [⟨1, "AAPL", none, 10, 150, 148, 1500⟩], [], 2⟩).1 = .ok r ∧
        r.pricePerShare = (⟨1, "AAPL", none, 10, 150, 148, 1500⟩ :
            Investment).currentPrice ∧
        r.quantitySold = 5) ∧
    buyInvestment (fun _ => none) "MSFT" (some 5)
        ⟨1000, [⟨1, "AAPL", none, 10, 150, 148, 1500⟩], [], 2⟩
      = (.error .pricingUnavailable,
          ⟨1000, [⟨1, "AAPL", none, 10, 150, 148, 1500⟩], [], 2⟩,
          [.oracleFetch]) :=
  C5_sell_price_fallback (fun _ => none) "MSFT" 1 5
    ⟨1000, [⟨1, "AAPL", none, 10, 150, 148, 1500⟩], [], 2⟩
    ⟨1, "AAPL", none, 10, 150, 148, 1500⟩ rfl (by norm_num) (by norm_num)
    rfl rfl

/-- The spec's ordering discipline on one request's event trace: before the
first oracle fetch, no row lock is taken. -/
def noLockBeforeOracle : List Event → Bool
  | [] => true
  | .oracleFetch :: _ => true
  | .lockUser :: _ => false
  | .lockInvestment :: _ => false
  | _ :: rest => noLockBeforeOracle rest

/-- C7, counterexample to the claim as stated: a successful sell acquires
the position row lock first and only then fetches the oracle price, so a
lock is held across the oracle call. -/
theorem C7_counterexample :
    (sellInvestment (fun _ => some ⟨150, none⟩) 1 (some 5)
        ⟨0, [⟨1, "AAPL", none, 10, 150, 150, 1500⟩], [], 2⟩).2.2
      = [.lockInvestment, .oracleFetch, .lockUser] ∧
    noLockBeforeOracle [.lockInvestment, .oracleFetch, .lockUser] = false := by
  refine ⟨?_, rfl⟩
  norm_num [sellInvestment, round2]

/-- C7 (amended): in both buy entry points the oracle fetch completes
before any lock is acquired, but in `sellInvestment` the position row is
locked before the oracle fetch; only the user-row lock follows the fetch
(the possible sell traces are exactly the three listed). -/
theorem C7_oracle_lock_order (oracle : String → Option StockData)
    (symbol : String) (id : Nat) (q : Option Int) (qc : ℤ)
    (s : LedgerState) :
    noLockBeforeOracle (buyInvestment oracle symbol q s).2.2 = true ∧
    noLockBeforeOracle (createInvestment oracle symbol qc s).2.2 = true ∧
    (sellInvestment oracle id q s).2.2 ∈
      ([[], [.lockInvestment],
        [.lockInvestment, .oracleFetch, .lockUser]] : List (List Event)) := by
  refine ⟨?_, ?_, ?_⟩
  · cases q with
    | none => rfl
    | some pq =>
      simp only [buyInvestment]
      split
      · rfl
      · split
        · rfl
        · split
          · rfl
          · split
            · rfl
            · split <;> rfl
  · simp only [createInvestment]
    split
    · rfl
    · split
      · rfl
      · split
        · rfl
        · split <;> rfl
  · cases q with
    | none => simp [sellInvestment]
    | some sq =>
      simp only [sellInvestment]
      split
      · simp
      · split
        · simp
        · split
          · simp
          · split <;> simp

theorem mem_replacePos {ps : List Investment} {inv p : Investment}
    (hp : p ∈ replacePos ps inv) : p = inv ∨ p ∈ ps := by
  simp only [replacePos, List.mem_map] at hp
  obtain ⟨a, ha, hpa⟩ := hp
  split at hpa
  · exact Or.inl hpa.symm
  · exact Or.inr (hpa ▸ ha)

theorem mem_removePos {ps : List Investment} {id : Nat} {p : Investment}
    (hp : p ∈ removePos ps id) : p ∈ ps := by
  simp only [removePos, List.mem_filter] at hp
  exact hp.1

/-- C9, counterexample to the claim as stated: `deleteInvestment` — a
public endpoint — removes a 10-share position outright, with the cash
balance and the transaction log untouched: no sell credit accompanies the
removal. -/
theorem C9_counterexample :
    deleteInvestment 1 ⟨100, [⟨1, "AAPL", none, 10, 150, 150, 1500⟩], [], 2⟩
      = (.ok (), ⟨100, [], [], 2⟩) := by
  rfl

/-- C9 (amended): a position row is created only by a buy of a fresh
symbol (with id `nextId` and, for `buyInvestment`, the symbol as given,
for `createInvestment`, the upper-cased symbol), every position surviving
a sell descends from an existing row, and rows are deleted by a
full-liquidation sell or by `deleteInvestment` — the latter without any
credit to the account or entry in the log. -/
theorem C9_position_lifecycle (oracle : String → Option StockData)
    (symbol : String) (id : Nat) (q : Option Int) (qc : ℤ)
    (s : LedgerState) :
    (deleteInvestment id s).2.cashBalance = s.cashBalance ∧
    (deleteInvestment id s).2.txns = s.txns ∧
    (∀ inv : Investment, s.positions.find? (fun p => p.id == id) = some inv →
      (deleteInvestment id s).2.positions = removePos s.positions inv.id) ∧
    (∀ p ∈ (sellInvestment oracle id q s).2.1.positions,
      ∃ p0 ∈ s.positions, p.id = p0.id ∧ p.symbol = p0.symbol) ∧
    (∀ p ∈ (buyInvestment oracle symbol q s).2.1.positions,
      (∃ p0 ∈ s.positions, p.id = p0.id ∧ p.symbol = p0.symbol) ∨
        (p.id = s.nextId ∧ p.symbol = symbol)) ∧
    (∀ p ∈ (createInvestment oracle symbol qc s).2.1.positions,
      (∃ p0 ∈ s.positions, p.id = p0.id ∧ p.symbol = p0.symbol) ∨
        (p.id = s.nextId ∧ p.symbol = jsToUpper symbol)) := by
  refine ⟨?_, ?_, ?_, ?_, ?_, ?_⟩
  · simp only [deleteInvestment]
    split <;> rfl
  · simp only [deleteInvestment]
    split <;> rfl
  · intro inv hfind
    simp only [deleteInvestment, hfind]
  · cases q with
    | none => exact fun p hp => ⟨p, hp, rfl, rfl⟩
    | some sq =>
      simp only [sellInvestment]
      split
      · exact fun p hp => ⟨p, hp, rfl, rfl⟩
      · split
        · exact fun p hp => ⟨p, hp, rfl, rfl⟩
        · rename_i investment hfind
          have hmem : investment ∈ s.positions := List.mem_of_find?_eq_some hfind
          split
          · exact fun p hp => ⟨p, hp, rfl, rfl⟩
          · split
            · exact fun p hp => ⟨p, mem_removePos hp, rfl, rfl⟩
            · intro p hp
              rcases mem_replacePos hp with rfl | hp'
              · exact ⟨investment, hmem, rfl, rfl⟩
              · exact ⟨p, hp', rfl, rfl⟩
  · cases q with
    | none => exact fun p hp => Or.inl ⟨p, hp, rfl, rfl⟩
    | some pq =>
      simp only [buyInvestment]
      split
      · exact fun p hp => Or.inl ⟨p, hp, rfl, rfl⟩
      · split
        · exact fun p hp => Or.inl ⟨p, hp, rfl, rfl⟩
        · split
          · exact fun p hp => Or.inl ⟨p, hp, rfl, rfl⟩
          · split
            · exact fun p hp => Or.inl ⟨p, hp, rfl, rfl⟩
            · split
              · rename_i investment hfind
                have hmem : investment ∈ s.positions :=
                  List.mem_of_find?_eq_some hfind
                intro p hp
                rcases mem_replacePos hp with rfl | hp'
                · exact Or.inl ⟨investment, hmem, rfl, rfl⟩
                · exact Or.inl ⟨p, hp', rfl, rfl⟩
              · intro p hp
                rcases List.mem_append.mp hp with hp' | hp'
                · exact Or.inl ⟨p, hp', rfl, rfl⟩
                · rcases List.mem_singleton.mp hp' with rfl
                  exact Or.inr ⟨rfl, rfl⟩
  · simp only [createInvestment]
    split
    · exact fun p hp => Or.inl ⟨p, hp, rfl, rfl⟩
    · split
      · exact fun p hp => Or.inl ⟨p, hp, rfl, rfl⟩
      · split
        · exact fun p hp => Or.inl ⟨p, hp, rfl, rfl⟩
        · split
          · rename_i investment hfind
            have hmem : investment ∈ s.positions :=
              List.mem_of_find?_eq_some hfind
            intro p hp
            rcases mem_replacePos hp with rfl | hp'
            · exact Or.inl ⟨investment, hmem, rfl, rfl⟩
            · exact Or.inl ⟨p, hp', rfl, rfl⟩
          · intro p hp
            rcases List.mem_append.mp hp with hp' | hp'
            · exact Or.inl ⟨p, hp', rfl, rfl⟩
            · rcases List.mem_singleton.mp hp' with rfl
              exact Or.inr ⟨rfl, rfl⟩

/-- C9 witness: the lifecycle facts applied to a concrete one-position
state: deleting keeps the balance at 100 and empties the list without
logging anything. -/
theorem C9_position_lifecycle_witness :
    (deleteInvestment 1
        ⟨100, [⟨1, "AAPL", none, 10, 150, 150, 1500⟩], [], 2⟩).2.cashBalance
      = (100 : ℚ) ∧
    (deleteInvestment 1
        ⟨100, [⟨1, "AAPL", none, 10, 150, 150, 1500⟩], [], 2⟩).2.positions
      = removePos [⟨1, "AAPL", none, 10, 150, 150, 1500⟩] 1 := by
  have h := C9_position_lifecycle (fun _ => none) "AAPL" 1 (some 5) 5
    ⟨100, [⟨1, "AAPL", none, 10, 150, 150, 1500⟩], [], 2⟩
  exact ⟨h.1, h.2.2.1 ⟨1, "AAPL", none, 10, 150, 150, 1500⟩ rfl⟩

/-- C6, counterexample to the claim as stated: `buyInvestment` with the
lower-case symbol "aapl" queries the oracle at "aapl" (the run succeeds
against an oracle defined only there) and stores the position under
"aapl", not under the upper-cased "AAPL". -/
theorem C6_counterexample :
    (buyInvestment (fun sym => if sym = "aapl" then some ⟨150, none⟩ else none)
        "aapl" (some 10) ⟨5000, [], [], 1⟩).2.1.positions
      = [⟨1, "aapl", some "aapl Inc.", 10, 150, 150, 1500⟩] ∧
    jsToUpper "aapl" = "AAPL" ∧ ("AAPL" : String) ≠ "aapl" := by
  refine ⟨?_, by decide, by decide⟩
  norm_num [buyInvestment, round2]
  decide

/-- C6 (amended): a missing/non-numeric or non-positive quantity is
rejected by both buy entry points before any I/O (the event trace is
empty), and `createInvestment` also rejects an empty symbol that way;
`createInvestment` upper-cases the symbol before lookup and storage, but
`buyInvestment` performs no normalization and no emptiness check — it
looks up and stores the symbol exactly as given. -/
theorem C6_input_validation (oracle : String → Option StockData)
    (symbol : String) (q : ℤ) (s : LedgerState) :
    buyInvestment oracle symbol none s = (.error .invalidInput, s, []) ∧
    (q ≤ 0 → buyInvestment oracle symbol (some q) s
        = (.error .invalidInput, s, [])) ∧
    (symbol = "" ∨ q ≤ 0 → createInvestment oracle symbol q s
        = (.error .invalidInput, s, [])) ∧
    (∀ r, (createInvestment oracle symbol q s).1 = .ok r →
      r.investment.symbol = jsToUpper symbol ∧
      r.txSymbol = jsToUpper symbol) ∧
    (∀ r, (buyInvestment oracle symbol (some q) s).1 = .ok r →
      r.investment.symbol = symbol ∧ r.txSymbol = symbol) := by
  refine ⟨rfl, ?_, ?_, ?_, ?_⟩
  · intro h
    simp only [buyInvestment]
    rw [if_pos h]
  · intro h
    simp only [createInvestment]
    rw [if_pos h]
  · intro r hr
    simp only [createInvestment] at hr
    split at hr
    · simp at hr
    · split at hr
      · simp at hr
      · split at hr
        · simp at hr
        · split at hr
          · rename_i investment hfind
            have hsym : investment.symbol = jsToUpper symbol := by
              simpa using List.find?_some hfind
            simp only [Except.ok.injEq] at hr
            subst hr
            exact ⟨hsym, rfl⟩
          · simp only [Except.ok.injEq] at hr
            subst hr
            exact ⟨rfl, rfl⟩
  · intro r hr
    simp only [buyInvestment] at hr
    split at hr
    · simp at hr
    · split at hr
      · simp at hr
      · split at hr
        · simp at hr
        · split at hr
          · simp at hr
          · split at hr
            · rename_i investment hfind
              have hsym : investment.symbol = symbol := by
                simpa using List.find?_some hfind
              simp only [Except.ok.injEq] at hr
              subst hr
              exact ⟨hsym, rfl⟩
            · simp only [Except.ok.injEq] at hr
              subst hr
              exact ⟨rfl, rfl⟩

/-- C6 witness: a buy with an unparsable quantity and a create with an
empty symbol are both rejected with an empty event trace. -/
theorem C6_input_validation_witness :
    buyInvestment (fun _ => some ⟨150, none⟩) "AAPL" none ⟨5000, [], [], 1⟩
      = (.error .invalidInput, ⟨5000, [], [], 1⟩, []) ∧
    createInvestment (fun _ => some ⟨150, none⟩) "" 5 ⟨5000, [], [], 1⟩
      = (.error .invalidInput, ⟨5000, [], [], 1⟩, []) :=
  ⟨(C6_input_validation (fun _ => some ⟨150, none⟩) "AAPL" 5
      ⟨5000, [], [], 1⟩).1,
   (C6_input_validation (fun _ => some ⟨150, none⟩) "" 5
      ⟨5000, [], [], 1⟩).2.2.1 (Or.inl rfl)⟩

/-- `buyInvestment` and `sellInvestment` keep every stored position's
quantity strictly positive. -/
theorem applyOp_positive (op : Op) (s : LedgerState)
    (hpos : ∀ p ∈ s.positions, 0 < p.quantity) :
    ∀ p ∈ (applyOp op s).positions, 0 < p.quantity := by
  cases op with
  | buy oracle symbol q =>
    cases q with
    | none => exact hpos
    | some pq =>
      simp only [applyOp, buyInvestment]
      split
      · exact hpos
      · rename_i hq
        split
        · exact hpos
        · split
          · exact hpos
          · split
            · exact hpos
            · split
              · rename_i investment hfind
                intro p hp
                rcases mem_replacePos hp with rfl | hp'
                · have h1 := hpos investment (List.mem_of_find?_eq_some hfind)
                  have h2 : 0 < pq := not_le.mp hq
                  show 0 < investment.quantity + pq
                  omega
                · exact hpos p hp'
              · intro p hp
                rcases List.mem_append.mp hp with hp' | hp'
                · exact hpos p hp'
                · rcases List.mem_singleton.mp hp' with rfl
                  exact not_le.mp hq
  | sell oracle id q =>
    cases q with
    | none => exact hpos
    | some sq =>
      simp only [applyOp, sellInvestment]
      split
      · exact hpos
      · rename_i hq
        split
        · exact hpos
        · rename_i investment hfind
          split
          · exact hpos
          · rename_i hnover
            split
            · exact fun p hp => hpos p (mem_removePos hp)
            · rename_i hne
              intro p hp
              rcases mem_replacePos hp with rfl | hp'
              · show 0 < investment.quantity - sq
                have h1 : ¬ investment.quantity < sq := hnover
                omega
              · exact hpos p hp'

/-- `createInvestment` also keeps every stored quantity strictly
positive. -/
theorem createInvestment_positive (oracle : String → Option StockData)
    (symbol : String) (q : ℤ) (s : LedgerState)
    (hpos : ∀ p ∈ s.positions, 0 < p.quantity) :
    ∀ p ∈ (createInvestment oracle symbol q s).2.1.positions,
      0 < p.quantity := by
  simp only [createInvestment]
  split
  · exact hpos
  · rename_i hvalid
    split
    · exact hpos
    · split
      · exact hpos
      · split
        · rename_i investment hfind
          intro p hp
          rcases mem_replacePos hp with rfl | hp'
          · have h1 := hpos investment (List.mem_of_find?_eq_some hfind)
            have h2 : 0 < q := by
              rcases not_or.mp hvalid with ⟨-, h⟩
              exact not_le.mp h
            show 0 < investment.quantity + q
            omega
          · exact hpos p hp'
        · intro p hp
          rcases List.mem_append.mp hp with hp' | hp'
          · exact hpos p hp'
          · rcases List.mem_singleton.mp hp' with rfl
            rcases not_or.mp hvalid with ⟨-, h⟩
            exact not_le.mp h

/-- C4 (confirmed): selling a position's exact full quantity deletes the
row and reports `remainingShares = 0`; and no committed operation — buy,
create, sell or delete — ever retains a position row with a non-positive
quantity, provided the starting state had none. -/
theorem C4_full_liquidation (oracle : String → Option StockData)
    (symbol : String) (id : Nat) (qc : ℤ) (s : LedgerState)
    (inv : Investment)
    (hpos : ∀ p ∈ s.positions, 0 < p.quantity)
    (hfind : s.positions.find? (fun p => p.id == id) = some inv) :
    ((sellInvestment oracle id (some inv.quantity) s).1.map
        fun r => r.remainingShares) = .ok 0 ∧
    (sellInvestment oracle id (some inv.quantity) s).2.1.positions
      = removePos s.positions inv.id ∧
    (∀ op : Op, ∀ p ∈ (applyOp op s).positions, 0 < p.quantity) ∧
    (∀ p ∈ (createInvestment oracle symbol qc s).2.1.positions,
      0 < p.quantity) ∧
    (∀ p ∈ (deleteInvestment id s).2.positions, 0 < p.quantity) := by
  have hq := hpos inv (List.mem_of_find?_eq_some hfind)
  have h1 : ¬ inv.quantity ≤ 0 := not_le.mpr hq
  refine ⟨?_, ?_, fun op => applyOp_positive op s hpos,
    createInvestment_positive oracle symbol qc s hpos, ?_⟩
  · cases horacle : oracle inv.symbol with
    | none => simp [sellInvestment, hfind, horacle, h1, Except.map]
    | some d => simp [sellInvestment, hfind, horacle, h1, Except.map]
  · cases horacle : oracle inv.symbol with
    | none => simp [sellInvestment, hfind, horacle, h1]
    | some d => simp [sellInvestment, hfind, horacle, h1]
  · simp only [deleteInvestment]
    split
    · exact hpos
    · exact fun p hp => hpos p (mem_removePos hp)

/-- C4 witness: selling all 10 AAPL shares deletes the row and reports
zero remaining shares. -/
theorem C4_full_liquidation_witness :
    ((sellInvestment (fun _ => some ⟨150, none⟩) 1 (some 10)
        ⟨1000, [⟨1, "AAPL", none, 10, 150, 150, 1500⟩], [], 2⟩).1.map
        fun r => r.remainingShares) = .ok 0 ∧
    (sellInvestment (fun _ => some ⟨150, none⟩) 1 (some 10)
        ⟨1000, [⟨1, "AAPL", none, 10, 150, 150, 1500⟩], [], 2⟩).2.1.positions
      = removePos [⟨1, "AAPL", none, 10, 150, 150, 1500⟩] 1 := by
  have h := C4_full_liquidation (fun _ => some ⟨150, none⟩) "AAPL" 1 5
    ⟨1000, [⟨1, "AAPL", none, 10, 150, 150, 1500⟩], [], 2⟩
    ⟨1, "AAPL", none, 10, 150, 150, 1500⟩ (by simp) rfl
  exact ⟨h.1, h.2.1⟩

/-- Explicit outcome of `buyInvestment` on a fresh symbol with a usable
positive price and sufficient funds. -/
theorem buyInvestment_fresh (oracle : String → Option StockData)
    (symbol : String) (q : ℤ) (s : LedgerState) (d : StockData)
    (hq : 0 < q) (ho : oracle symbol = some d) (hp : 0 < d.price)
    (hfresh : s.positions.find? (fun p => p.symbol == symbol) = none)
    (hf : round2 (d.price * q) ≤ s.cashBalance) :
    buyInvestment oracle symbol (some q) s =
      (.ok { investment :=
               { id := s.nextId, symbol := symbol,
                 companyName := some (d.shortName.getD (symbol ++ " Inc.")),
                 quantity := q, purchasePrice := round2 d.price,
                 currentPrice := round2 d.price,
                 totalInvested := round2 (d.price * q) },
             remainingCash := round2 (s.cashBalance - round2 (d.price * q)),
             txSymbol := symbol, txQuantity := q, txPricePerShare := d.price,
             txTotalCost := round2 (d.price * q) },
       { cashBalance := round2 (s.cashBalance - round2 (d.price * q)),
         positions := s.positions ++
           [{ id := s.nextId, symbol := symbol,
              companyName := some (d.shortName.getD (symbol ++ " Inc.")),
              quantity := q, purchasePrice := round2 d.price,
              currentPrice := round2 d.price,
              totalInvested := round2 (d.price * q) }],
         txns := s.txns ++
           [⟨symbol, "BUY", q, round2 d.price, round2 (d.price * q)⟩],
         nextId := s.nextId + 1 },
       [.oracleFetch, .lockUser, .lockInvestment]) := by
  simp only [buyInvestment, ho, hfresh]
  rw [if_neg (not_le.mpr hq), if_neg (not_le.mpr hp), if_neg (not_lt.mpr hf)]

/-- Explicit outcome of `buyInvestment` on an already-held symbol with a
usable positive price and sufficient funds. -/
theorem buyInvestment_existing (oracle : String → Option StockData)
    (symbol : String) (q : ℤ) (s : LedgerState) (d : StockData)
    (inv : Investment)
    (hq : 0 < q) (ho : oracle symbol = some d) (hp : 0 < d.price)
    (hfind : s.positions.find? (fun p => p.symbol == symbol) = some inv)
    (hf : round2 (d.price * q) ≤ s.cashBalance) :
    buyInvestment oracle symbol (some q) s =
      (.ok { investment :=
               { inv with
                 quantity := inv.quantity + q,
                 purchasePrice := round2
                   (round2 (inv.totalInvested + round2 (d.price * q)) /
                     ((inv.quantity + q : ℤ) : ℚ)),
                 totalInvested := round2
                   (inv.totalInvested + round2 (d.price * q)),
                 currentPrice := round2 d.price },
             remainingCash := round2 (s.cashBalance - round2 (d.price * q)),
             txSymbol := symbol, txQuantity := q, txPricePerShare := d.price,
             txTotalCost := round2 (d.price * q) },
       { s with
         cashBalance := round2 (s.cashBalance - round2 (d.price * q)),
         positions := replacePos s.positions
           { inv with
             quantity := inv.quantity + q,
             purchasePrice := round2
               (round2 (inv.totalInvested + round2 (d.price * q)) /
                 ((inv.quantity + q : ℤ) : ℚ)),
             totalInvested := round2
               (inv.totalInvested + round2 (d.price * q)),
             currentPrice := round2 d.price },
         txns := s.txns ++
           [⟨symbol, "BUY", q, round2 d.price, round2 (d.price * q)⟩] },
       [.oracleFetch, .lockUser, .lockInvestment]) := by
  simp only [buyInvestment, ho, hfind]
  rw [if_neg (not_le.mpr hq), if_neg (not_le.mpr hp), if_neg (not_lt.mpr hf)]

/-- Explicit outcome of `createInvestment` on a fresh symbol with a usable
price and sufficient funds. -/
theorem createInvestment_fresh (oracle : String → Option StockData)
    (symbol : String) (q : ℤ) (s : LedgerState) (d : StockData)
    (hsym : symbol ≠ "") (hq : 0 < q)
    (ho : oracle (jsToUpper symbol) = some d)
    (hfresh : s.positions.find?
      (fun p => p.symbol == jsToUpper symbol) = none)
    (hf : d.price * q ≤ s.cashBalance) :
    createInvestment oracle symbol q s =
      (.ok { investment :=
               { id := s.nextId, symbol := jsToUpper symbol,
                 companyName := d.shortName, quantity := q,
                 purchasePrice := d.price, currentPrice := d.price,
                 totalInvested := d.price * q },
             remainingCash := s.cashBalance - d.price * q,
             txSymbol := jsToUpper symbol, txQuantity := q,
             txPricePerShare := d.price, txTotalCost := d.price * q },
       { cashBalance := s.cashBalance - d.price * q,
         positions := s.positions ++
           [{ id := s.nextId, symbol := jsToUpper symbol,
              companyName := d.shortName, quantity := q,
              purchasePrice := d.price, currentPrice := d.price,
              totalInvested := d.price * q }],
         txns := s.txns ++
           [⟨jsToUpper symbol, "BUY", q, d.price, d.price * q⟩],
         nextId := s.nextId + 1 },
       [.oracleFetch, .readUser, .readInvestment]) := by
  simp only [createInvestment, ho, hfresh]
  rw [if_neg (by push_neg; exact ⟨hsym, hq⟩), if_neg (not_lt.mpr hf)]

/-- Explicit outcome of `createInvestment` on an already-held symbol with a
usable price and sufficient funds. -/
theorem createInvestment_existing (oracle : String → Option StockData)
    (symbol : String) (q : ℤ) (s : LedgerState) (d : StockData)
    (inv : Investment)
    (hsym : symbol ≠ "") (hq : 0 < q)
    (ho : oracle (jsToUpper symbol) = some d)
    (hfind : s.positions.find?
      (fun p => p.symbol == jsToUpper symbol) = some inv)
    (hf : d.price * q ≤ s.cashBalance) :
    createInvestment oracle symbol q s =
      (.ok { investment :=
               { inv with
                 quantity := inv.quantity + q,
                 purchasePrice := (inv.totalInvested + d.price * q) /
                   ((inv.quantity + q : ℤ) : ℚ),
                 totalInvested := inv.totalInvested + d.price * q,
                 currentPrice := d.price,
                 companyName := d.shortName.or inv.companyName },
             remainingCash := s.cashBalance - d.price * q,
             txSymbol := jsToUpper symbol, txQuantity := q,
             txPricePerShare := d.price, txTotalCost := d.price * q },
       { s with
         cashBalance := s.cashBalance - d.price * q,
         positions := replacePos s.positions
           { inv with
             quantity := inv.quantity + q,
             purchasePrice := (inv.totalInvested + d.price * q) /
               ((inv.quantity + q : ℤ) : ℚ),
             totalInvested := inv.totalInvested + d.price * q,
             currentPrice := d.price,
             companyName := d.shortName.or inv.companyName },
         txns := s.txns ++
           [⟨jsToUpper symbol, "BUY", q, d.price, d.price * q⟩] },
       [.oracleFetch, .readUser, .readInvestment]) := by
  simp only [createInvestment, ho, hfind]
  rw [if_neg (by push_neg; exact ⟨hsym, hq⟩), if_neg (not_lt.mpr hf)]

theorem find?_append_last {l : List Investment} {pred : Investment → Bool}
    {b : Investment} (hl : ∀ p ∈ l, ¬ pred p = true) (hb : pred b = true) :
    (l ++ [b]).find? pred = some b := by
  induction l with
  | nil => simp [List.find?, hb]
  | cons x xs ih =>
    have hx : ¬ pred x = true := hl x (List.mem_cons_self x xs)
    rw [List.cons_append, List.find?_cons_of_neg _ hx]
    exact ih fun p hp => hl p (List.mem_cons_of_mem x hp)

theorem replacePos_append_last {l : List Investment} {a b : Investment}
    (hid : b.id = a.id) (h : ∀ p ∈ l, p.id ≠ a.id) :
    replacePos (l ++ [a]) b = l ++ [b] := by
  simp only [replacePos, List.map_append, List.map_cons, List.map_nil]
  congr 1
  · calc l.map (fun p => if p.id == b.id then b else p)
        = l.map (fun p => p) :=
          List.map_congr_left fun p hp =>
            if_neg (by simp only [beq_iff_eq, hid]; exact h p hp)
      _ = l := List.map_id' l
  · simp [hid]

/-- C8 (confirmed): buying `q1` then `q2` of a fresh symbol at prices
`p1`, `p2` (whatever the oracle returned on each occasion) leaves one
position for the symbol with quantity `q1 + q2` and cost basis
`round2 (p1*q1) + round2 (p2*q2)` — each trade's cost rounded once when
derived — which is within one cent of the ideal `q1*p1 + q2*p2`. -/
theorem C8_weighted_average (oracle1 oracle2 : String → Option StockData)
    (symbol : String) (q1 q2 : ℤ) (s : LedgerState) (d1 d2 : StockData)
    (hq1 : 0 < q1) (hq2 : 0 < q2)
    (ho1 : oracle1 symbol = some d1) (hp1 : 0 < d1.price)
    (ho2 : oracle2 symbol = some d2) (hp2 : 0 < d2.price)
    (hfresh : s.positions.find? (fun p => p.symbol == symbol) = none)
    (hids : ∀ p ∈ s.positions, p.id ≠ s.nextId)
    (hcash : Money2 s.cashBalance)
    (hf1 : round2 (d1.price * q1) ≤ s.cashBalance)
    (hf2 : round2 (d2.price * q2)
      ≤ s.cashBalance - round2 (d1.price * q1)) :
    ((buyInvestment oracle2 symbol (some q2)
          (buyInvestment oracle1 symbol (some q1) s).2.1).2.1.positions.find?
        (fun p => p.symbol == symbol)).map
        (fun p => (p.quantity, p.totalInvested))
      = some (q1 + q2, round2 (d1.price * q1) + round2 (d2.price * q2)) ∧
    |round2 (d1.price * q1) + round2 (d2.price * q2)
        - (d1.price * q1 + d2.price * q2)| ≤ 1 / 100 := by
  have htc1 : Money2 (round2 (d1.price * q1)) := round2_money2 _
  have htc2 : Money2 (round2 (d2.price * q2)) := round2_money2 _
  have e1 := buyInvestment_fresh oracle1 symbol q1 s d1 hq1 ho1 hp1 hfresh hf1
  have hall : ∀ p ∈ s.positions, ¬ (p.symbol == symbol) = true :=
    fun p hp => List.find?_eq_none.mp hfresh p hp
  constructor
  · rw [e1]
    have hc1 : round2 (s.cashBalance - round2 (d1.price * q1))
        = s.cashBalance - round2 (d1.price * q1) :=
      round2_eq_self (hcash.sub htc1)
    have hfind1 :
        ((s.positions ++
          [({ id := s.nextId, symbol := symbol,
              companyName := some (d1.shortName.getD (symbol ++ " Inc.")),
              quantity := q1, purchasePrice := round2 d1.price,
              currentPrice := round2 d1.price,
              totalInvested := round2 (d1.price * q1) } : Investment)]).find?
          (fun p => p.symbol == symbol)) = some
          { id := s.nextId, symbol := symbol,
            companyName := some (d1.shortName.getD (symbol ++ " Inc.")),
            quantity := q1, purchasePrice := round2 d1.price,
            currentPrice := round2 d1.price,
            totalInvested := round2 (d1.price * q1) } :=
      find?_append_last hall (by simp)
    have hf2' : round2 (d2.price * q2)
        ≤ round2 (s.cashBalance - round2 (d1.price * q1)) := by
      rw [hc1]; exact hf2
    have e2 := buyInvestment_existing oracle2 symbol q2
      ({ cashBalance := round2 (s.cashBalance - round2 (d1.price * q1)),
         positions := s.positions ++
           [{ id := s.nextId, symbol := symbol,
              companyName := some (d1.shortName.getD (symbol ++ " Inc.")),
              quantity := q1, purchasePrice := round2 d1.price,
              currentPrice := round2 d1.price,
              totalInvested := round2 (d1.price * q1) }],
         txns := s.txns ++
           [⟨symbol, "BUY", q1, round2 d1.price, round2 (d1.price * q1)⟩],
         nextId := s.nextId + 1 } : LedgerState) d2
      { id := s.nextId, symbol := symbol,
        companyName := some (d1.shortName.getD (symbol ++ " Inc.")),
        quantity := q1, purchasePrice := round2 d1.price,
        currentPrice := round2 d1.price,
        totalInvested := round2 (d1.price * q1) }
      hq2 ho2 hp2 hfind1 hf2'
    have hrepl := replacePos_append_last (l := s.positions)
      (a := { id := s.nextId, symbol := symbol,
              companyName := some (d1.shortName.getD (symbol ++ " Inc.")),
              quantity := q1, purchasePrice := round2 d1.price,
              currentPrice := round2 d1.price,
              totalInvested := round2 (d1.price * q1) })
      (b := { id := s.nextId, symbol := symbol,
              companyName := some (d1.shortName.getD (symbol ++ " Inc.")),
              quantity := q1 + q2,
              purchasePrice := round2
                (round2 (round2 (d1.price * q1) + round2 (d2.price * q2)) /
                  ((q1 + q2 : ℤ) : ℚ)),
              currentPrice := round2 d2.price,
              totalInvested := round2
                (round2 (d1.price * q1) + round2 (d2.price * q2)) })
      rfl hids
    have hpos2 : (buyInvestment oracle2 symbol (some q2)
        ({ cashBalance := round2 (s.cashBalance - round2 (d1.price * q1)),
           positions := s.positions ++
             [{ id := s.nextId, symbol := symbol,
                companyName := some (d1.shortName.getD (symbol ++ " Inc.")),
                quantity := q1, purchasePrice := round2 d1.price,
                currentPrice := round2 d1.price,
                totalInvested := round2 (d1.price * q1) }],
           txns := s.txns ++
             [⟨symbol, "BUY", q1, round2 d1.price, round2 (d1.price * q1)⟩],
           nextId := s.nextId + 1 } : LedgerState)).2.1.positions
        = s.positions ++
          [{ id := s.nextId, symbol := symbol,
             companyName := some (d1.shortName.getD (symbol ++ " Inc.")),
             quantity := q1 + q2,
             purchasePrice := round2
               (round2 (round2 (d1.price * q1) + round2 (d2.price * q2)) /
                 ((q1 + q2 : ℤ) : ℚ)),
             currentPrice := round2 d2.price,
             totalInvested := round2
               (round2 (d1.price * q1) + round2 (d2.price * q2)) }] := by
      rw [e2]; exact hrepl
    rw [hpos2, find?_append_last hall (by simp)]
    simp only [Option.map_some']
    rw [round2_eq_self (htc1.add htc2)]
  · have b1 := abs_round2_sub_le (d1.price * q1)
    have b2 := abs_round2_sub_le (d2.price * q2)
    have hsplit : round2 (d1.price * q1) + round2 (d2.price * q2)
        - (d1.price * q1 + d2.price * q2)
        = (round2 (d1.price * q1) - d1.price * q1)
          + (round2 (d2.price * q2) - d2.price * q2) := by ring
    rw [hsplit]
    calc |(round2 (d1.price * q1) - d1.price * q1)
            + (round2 (d2.price * q2) - d2.price * q2)|
        ≤ |round2 (d1.price * q1) - d1.price * q1|
          + |round2 (d2.price * q2) - d2.price * q2| := abs_add _ _
      _ ≤ 1 / 100 := by linarith

/-- C8 witness: buying 10 at 150 then 10 at 155 yields one 20-share
position with cost basis 3050. -/
theorem C8_weighted_average_witness :
    ((buyInvestment (fun _ => some ⟨155, none⟩) "AAPL" (some 10)
          (buyInvestment (fun _ => some ⟨150, none⟩) "AAPL" (some 10)
            ⟨5000, [], [], 1⟩).2.1).2.1.positions.find?
        (fun p => p.symbol == "AAPL")).map
        (fun p => (p.quantity, p.totalInvested))
      = some ((20 : ℤ), (3050 : ℚ)) ∧
    |(3050 : ℚ) - (1500 + 1550)| ≤ 1 / 100 := by
  have h := C8_weighted_average (fun _ => some ⟨150, none⟩)
    (fun _ => some ⟨155, none⟩) "AAPL" 10 10 ⟨5000, [], [], 1⟩
    ⟨150, none⟩ ⟨155, none⟩ (by norm_num) (by norm_num) rfl (by norm_num)
    rfl (by norm_num) rfl (by simp) ⟨500000, by norm_num⟩
    (by norm_num [round2]) (by norm_num [round2])
  constructor
  · rw [h.1]
    norm_num [round2]
  · norm_num

/-- C10, counterexample to the claim as stated: for the identical request
(symbol "aapl", quantity 10, same oracle, same starting state) the two
"equivalent" entry points commit different states — `createInvestment`
stores the position under "AAPL" while `buyInvestment` stores it under
"aapl". -/
theorem C10_counterexample :
    (createInvestment (fun _ => some ⟨150, none⟩) "aapl" 10
        ⟨5000, [], [], 1⟩).2.1.positions.map (fun p => p.symbol)
      = ["AAPL"] ∧
    (buyInvestment (fun _ => some ⟨150, none⟩) "aapl" (some 10)
        ⟨5000, [], [], 1⟩).2.1.positions.map (fun p => p.symbol)
      = ["aapl"] ∧
    ("AAPL" : String) ≠ "aapl" := by
  have hupper : jsToUpper "aapl" = "AAPL" := by decide
  have hne : ¬ ("aapl" = "") := by decide
  refine ⟨?_, ?_, by decide⟩
  · norm_num [createInvestment, hupper, hne]
  · norm_num [buyInvestment, round2]

/-- C10 (amended): the two buy entry points are not behaviorally
equivalent in general — they differ on symbol normalization and rounding —
but they do agree on the committed cash balance, transaction record, and
position identity/quantity/cost-basis whenever the symbol is already
upper-case and non-empty, the quantity is positive, and the oracle price is
a positive two-decimal amount against two-decimal stored balances; they
also fail in the same cases then (`isOk` agrees), though with differently
shaped error payloads. -/
theorem C10_entry_point_agreement (oracle : String → Option StockData)
    (symbol : String) (q : ℤ) (s : LedgerState) (d : StockData)
    (hupper : jsToUpper symbol = symbol) (hsym : symbol ≠ "")
    (hq : 0 < q) (ho : oracle symbol = some d) (hp : 0 < d.price)
    (hmp : Money2 d.price) (hcash : Money2 s.cashBalance)
    (hinvm : ∀ p ∈ s.positions, Money2 p.totalInvested) :
    (createInvestment oracle symbol q s).2.1.cashBalance
      = (buyInvestment oracle symbol (some q) s).2.1.cashBalance ∧
    (createInvestment oracle symbol q s).2.1.txns
      = (buyInvestment oracle symbol (some q) s).2.1.txns ∧
    (createInvestment oracle symbol q s).2.1.positions.map
        (fun p => (p.id, p.symbol, p.quantity, p.totalInvested))
      = (buyInvestment oracle symbol (some q) s).2.1.positions.map
        (fun p => (p.id, p.symbol, p.quantity, p.totalInvested)) ∧
    (createInvestment oracle symbol q s).1.isOk
      = (buyInvestment oracle symbol (some q) s).1.isOk := by
  have htcM : Money2 (d.price * (q : ℚ)) := hmp.mul_int q
  have htc : round2 (d.price * (q : ℚ)) = d.price * q := round2_eq_self htcM
  have hpr : round2 d.price = d.price := round2_eq_self hmp
  have ho' : oracle (jsToUpper symbol) = some d := by rw [hupper]; exact ho
  by_cases hfunds : s.cashBalance < d.price * q
  · have hb : buyInvestment oracle symbol (some q) s
        = (.error (.insufficientFundsBalance s.cashBalance), s,
            [.oracleFetch, .lockUser]) := by
      simp only [buyInvestment, ho]
      rw [if_neg (not_le.mpr hq), if_neg (not_le.mpr hp),
        if_pos (by rw [htc]; exact hfunds)]
    have hc : createInvestment oracle symbol q s
        = (.error (.insufficientFundsMsg (d.price * q) s.cashBalance), s,
            [.oracleFetch, .readUser]) := by
      simp only [createInvestment, ho']
      rw [if_neg (by push_neg; exact ⟨hsym, hq⟩), if_pos hfunds]
    rw [hb, hc]
    exact ⟨rfl, rfl, rfl, rfl⟩
  · have hf : d.price * q ≤ s.cashBalance := not_lt.mp hfunds
    have hfB : round2 (d.price * (q : ℚ)) ≤ s.cashBalance := by
      rw [htc]; exact hf
    cases hfind : s.positions.find? (fun p => p.symbol == symbol) with
    | none =>
      have hfreshC : s.positions.find?
          (fun p => p.symbol == jsToUpper symbol) = none := by
        rw [hupper]; exact hfind
      have ec := createInvestment_fresh oracle symbol q s d hsym hq ho'
        hfreshC hf
      have eb := buyInvestment_fresh oracle symbol q s d hq ho hp hfind hfB
      rw [ec, eb]
      refine ⟨?_, ?_, ?_, rfl⟩
      · show s.cashBalance - d.price * q
          = round2 (s.cashBalance - round2 (d.price * q))
        rw [htc, round2_eq_self (hcash.sub htcM)]
      · show s.txns ++ [⟨jsToUpper symbol, "BUY", q, d.price, d.price * q⟩]
          = s.txns ++ [⟨symbol, "BUY", q, round2 d.price,
              round2 (d.price * q)⟩]
        rw [hupper, hpr, htc]
      · simp only [List.map_append, List.map_cons, List.map_nil]
        rw [hupper, htc]
    | some inv =>
      have hfindC : s.positions.find?
          (fun p => p.symbol == jsToUpper symbol) = some inv := by
        rw [hupper]; exact hfind
      have hm := hinvm inv (List.mem_of_find?_eq_some hfind)
      have htotal : round2 (inv.totalInvested + round2 (d.price * (q : ℚ)))
          = inv.totalInvested + d.price * q := by
        rw [htc]; exact round2_eq_self (hm.add htcM)
      have ec := createInvestment_existing oracle symbol q s d inv hsym hq
        ho' hfindC hf
      have eb := buyInvestment_existing oracle symbol q s d inv hq ho hp
        hfind hfB
      rw [ec, eb]
      refine ⟨?_, ?_, ?_, rfl⟩
      · show s.cashBalance - d.price * q
          = round2 (s.cashBalance - round2 (d.price * q))
        rw [htc, round2_eq_self (hcash.sub htcM)]
      · show s.txns ++ [⟨jsToUpper symbol, "BUY", q, d.price, d.price * q⟩]
          = s.txns ++ [⟨symbol, "BUY", q, round2 d.price,
              round2 (d.price * q)⟩]
        rw [hupper, hpr, htc]
      · simp only [replacePos, List.map_map]
        apply List.map_congr_left
        intro p hp
        by_cases hid : p.id = inv.id
        · simp [hid, htotal]
        · simp [hid]

/-- C10 witness: under an already-upper-case symbol and a two-decimal
price the two entry points commit the same cash, log and position
projection. -/
theorem C10_entry_point_agreement_witness :
    (createInvestment (fun _ => some ⟨150, none⟩) "AAPL" 10
        ⟨5000, [], [], 1⟩).2.1.cashBalance
      = (buyInvestment (fun _ => some ⟨150, none⟩) "AAPL" (some 10)
          ⟨5000, [], [], 1⟩).2.1.cashBalance ∧
    (createInvestment (fun _ => some ⟨150, none⟩) "AAPL" 10
        ⟨5000, [], [], 1⟩).2.1.txns
      = (buyInvestment (fun _ => some ⟨150, none⟩) "AAPL" (some 10)
          ⟨5000, [], [], 1⟩).2.1.txns ∧
    (createInvestment (fun _ => some ⟨150, none⟩) "AAPL" 10
        ⟨5000, [], [], 1⟩).2.1.positions.map
        (fun p => (p.id, p.symbol, p.quantity, p.totalInvested))
      = (buyInvestment (fun _ => some ⟨150, none⟩) "AAPL" (some 10)
          ⟨5000, [], [], 1⟩).2.1.positions.map
        (fun p => (p.id, p.symbol, p.quantity, p.totalInvested)) ∧
    (createInvestment (fun _ => some ⟨150, none⟩) "AAPL" 10
        ⟨5000, [], [], 1⟩).1.isOk
      = (buyInvestment (fun _ => some ⟨150, none⟩) "AAPL" (some 10)
          ⟨5000, [], [], 1⟩).1.isOk :=
  C10_entry_point_agreement (fun _ => some ⟨150, none⟩) "AAPL" 10
    ⟨5000, [], [], 1⟩ ⟨150, none⟩ (by decide) (by decide) (by norm_num) rfl
    (by norm_num) ⟨15000, by norm_num⟩ ⟨500000, by norm_num⟩ (by simp)

end Epsilon
